import Mathlib

/-!
Verification of the GrainCraft inventory and order subsystem.

Shallow embedding of the stock ledger
(src/advanced-features/smart_inventory.py, class SmartInventoryManager)
and of the backend server (src/backend/server.py).  Python floats are
modelled as exact rationals; timestamps as rationals; MongoDB collections
as Lean lists in natural (insertion) order, with find_one modelled as
List.find? (first match) and update_one modelled as an update of the
first matching element.
-/

namespace GrainCraft

/-- Generic model of MongoDB update_one: rewrite the first element of the
list satisfying the filter, leaving everything else untouched. -/
def updateFirst (p : α → Bool) (f : α → α) : List α → List α
  | [] => []
  | x :: xs => if p x then f x :: xs else x :: updateFirst p f xs

theorem mem_updateFirst {p : α → Bool} {f : α → α} {l : List α} {b : α}
    (hb : b ∈ updateFirst p f l) :
    b ∈ l ∨ ∃ a, l.find? p = some a ∧ b = f a := by
  induction l with
  | nil => simp [updateFirst] at hb
  | cons x xs ih =>
    by_cases hx : p x
    · rw [updateFirst, if_pos hx] at hb
      rcases List.mem_cons.mp hb with h | h
      · exact Or.inr ⟨x, List.find?_cons_of_pos _ hx, h⟩
      · exact Or.inl (List.mem_cons_of_mem _ h)
    · rw [updateFirst, if_neg hx] at hb
      rcases List.mem_cons.mp hb with h | h
      · exact Or.inl (h ▸ List.mem_cons_self x xs)
      · rcases ih h with h2 | ⟨a, ha, hba⟩
        · exact Or.inl (List.mem_cons_of_mem _ h2)
        · refine Or.inr ⟨a, ?_, hba⟩
          rw [List.find?_cons_of_neg _ (by simpa using hx)]
          exact ha

theorem find?_updateFirst_pos {p : α → Bool} {f : α → α} {l : List α} {a : α}
    (ha : l.find? p = some a) (hfa : p (f a) = true) :
    (updateFirst p f l).find? p = some (f a) := by
  induction l with
  | nil => simp at ha
  | cons x xs ih =>
    by_cases hx : p x
    · rw [List.find?_cons_of_pos _ hx] at ha
      obtain rfl : x = a := by simpa using ha
      rw [updateFirst, if_pos hx, List.find?_cons_of_pos _ hfa]
    · rw [List.find?_cons_of_neg _ (by simpa using hx)] at ha
      rw [updateFirst, if_neg hx, List.find?_cons_of_neg _ (by simpa using hx)]
      exact ih ha

theorem find?_updateFirst_disjoint (p q : α → Bool) (f : α → α) {l : List α}
    (hpq : ∀ b, p b = true → q b = false) (hfq : ∀ b, q (f b) = q b) :
    (updateFirst p f l).find? q = l.find? q := by
  induction l with
  | nil => rfl
  | cons x xs ih =>
    by_cases hx : p x
    · rw [updateFirst, if_pos hx]
      have hq : q (f x) = false := by rw [hfq]; exact hpq x hx
      rw [List.find?_cons_of_neg _ (by simp [hq]),
        List.find?_cons_of_neg _ (by simp [hpq x hx])]
    · rw [updateFirst, if_neg hx]
      by_cases hq : q x
      · rw [List.find?_cons_of_pos _ hq, List.find?_cons_of_pos _ hq]
      · rw [List.find?_cons_of_neg _ (by simpa using hq),
          List.find?_cons_of_neg _ (by simpa using hq)]
        exact ih

theorem updateFirst_of_forall_neg {p : α → Bool} {f : α → α} {l : List α}
    (h : ∀ x ∈ l, p x = false) : updateFirst p f l = l := by
  induction l with
  | nil => rfl
  | cons x xs ih =>
    rw [updateFirst, if_neg (by simp [h x (List.mem_cons_self x xs)])]
    rw [ih fun y hy => h y (List.mem_cons_of_mem _ hy)]

theorem map_updateFirst {p : α → Bool} {f : α → α} {m : α → β} {l : List α}
    (hm : ∀ b, m (f b) = m b) : (updateFirst p f l).map m = l.map m := by
  induction l with
  | nil => rfl
  | cons x xs ih =>
    by_cases hx : p x
    · rw [updateFirst, if_pos hx]; simp [hm]
    · rw [updateFirst, if_neg hx]; simp [ih]

/-- A stock batch document of the inventory collection
(smart_inventory.py, InventoryItem dataclass and the documents built by
initialize_inventory_items and add_stock).  Metadata fields that no stock
operation reads or writes (minimum_threshold, optimal_stock, cost_per_kg,
supplier_id, received/expiry dates, quality_metrics, location) are
omitted; stock figures are exact rationals in place of Python floats. -/
structure InventoryItem where
  grain_id : String
  batch_id : String
  current_stock : ℚ
  reserved_stock : ℚ
  available_stock : ℚ
  last_updated : ℚ
deriving Repr, DecidableEq

/-- A grain record of the catalog collection (server.py, Grain model);
only the fields the verified operations touch are kept. -/
structure Grain where
  id : String
  stock_kg : ℚ
  available : Bool
deriving Repr, DecidableEq

/-- The persistent state the SmartInventoryManager operates on: the
inventory collection and the grains collection. -/
structure InvState where
  inventory : List InventoryItem
  grains : List Grain
deriving Repr, DecidableEq

/-- db.inventory.find_one with filter grain_id: the first batch of the
given grain in insertion order. -/
def findItem (s : InvState) (gid : String) : Option InventoryItem :=
  s.inventory.find? (fun b => b.grain_id == gid)

/-- db.grains.find_one with filter id. -/
def findGrain (s : InvState) (gid : String) : Option Grain :=
  s.grains.find? (fun g => g.id == gid)

/-- SmartInventoryManager.reserve_stock (smart_inventory.py lines
332-360): look up the batch for the grain; if none, return False; if the
read available_stock is at least the quantity, increment reserved_stock
and decrement available_stock on that batch and return True, else return
False with no change. -/
def reserve_stock (s : InvState) (gid : String) (q : ℚ) (now : ℚ) :
    Bool × InvState :=
  match findItem s gid with
  | none => (false, s)
  | some item =>
    if item.available_stock ≥ q then
      (true, { s with inventory :=
        (updateFirst (fun b => b.grain_id == gid)
          (fun b => { b with
            reserved_stock := b.reserved_stock + q,
            available_stock := b.available_stock - q,
            last_updated := now }) s.inventory) })
    else (false, s)

/-- SmartInventoryManager.release_stock (smart_inventory.py lines
362-377): unconditional update of the first batch for the grain,
decrementing reserved_stock and incrementing available_stock by the
quantity; the source applies no clamping of any kind. -/
def release_stock (s : InvState) (gid : String) (q : ℚ) (now : ℚ) :
    InvState :=
  { s with inventory :=
    (updateFirst (fun b => b.grain_id == gid)
      (fun b => { b with
        reserved_stock := b.reserved_stock - q,
        available_stock := b.available_stock + q,
        last_updated := now }) s.inventory) }

/-- SmartInventoryManager.consume_stock (smart_inventory.py lines
379-406): look up the batch; if present, set current_stock to the read
value minus the quantity (no clamping) and reserved_stock to
max 0 (read value minus quantity), then propagate the new current_stock
to the stock_kg field of the grain record. -/
def consume_stock (s : InvState) (gid : String) (q : ℚ) (now : ℚ) :
    InvState :=
  match findItem s gid with
  | none => s
  | some item =>
    let newCur := item.current_stock - q
    let newRes := max 0 (item.reserved_stock - q)
    { inventory :=
        (updateFirst (fun b => b.grain_id == gid)
          (fun b => { b with
            current_stock := newCur,
            reserved_stock := newRes,
            last_updated := now }) s.inventory),
      grains :=
        (updateFirst (fun g => g.id == gid)
          (fun g => { g with stock_kg := newCur }) s.grains) }

/-- SmartInventoryManager.add_stock (smart_inventory.py lines 408-451),
the replenish operation: insert a fresh batch with reserved_stock 0 and
current_stock = available_stock = quantity, then, if the grain exists in
the catalog, increase its stock_kg by the quantity. -/
def add_stock (s : InvState) (gid : String) (q : ℚ) (batch : String)
    (now : ℚ) : InvState :=
  let item : InventoryItem :=
    { grain_id := gid, batch_id := batch, current_stock := q,
      reserved_stock := 0, available_stock := q, last_updated := now }
  { inventory := s.inventory ++ [item],
    grains :=
      (match findGrain s gid with
      | none => s.grains
      | some g =>
        updateFirst (fun g2 => g2.id == gid)
          (fun g2 => { g2 with stock_kg := g.stock_kg + q }) s.grains) }

/-- One ledger operation, for reasoning about sequences of stock
mutations. -/
inductive StockOp where
  | add (gid : String) (q : ℚ) (batch : String)
  | reserve (gid : String) (q : ℚ)
  | release (gid : String) (q : ℚ)
  | consume (gid : String) (q : ℚ)
deriving Repr, DecidableEq

def applyOp (now : ℚ) (s : InvState) : StockOp → InvState
  | .add gid q batch => add_stock s gid q batch now
  | .reserve gid q => (reserve_stock s gid q now).2
  | .release gid q => release_stock s gid q now
  | .consume gid q => consume_stock s gid q now

def execOps (now : ℚ) (s : InvState) : List StockOp → InvState
  | [] => s
  | op :: ops => execOps now (applyOp now s op) ops

/-- The per-batch invariant claimed by the spec: the stock figures are
consistent and nonnegative. -/
def batchOK (b : InventoryItem) : Prop :=
  b.available_stock + b.reserved_stock = b.current_stock ∧
    0 ≤ b.available_stock ∧ 0 ≤ b.reserved_stock

instance (b : InventoryItem) : Decidable (batchOK b) :=
  inferInstanceAs (Decidable
    (b.available_stock + b.reserved_stock = b.current_stock ∧
      0 ≤ b.available_stock ∧ 0 ≤ b.reserved_stock))

/-- The discipline under which the ledger does preserve the invariant:
quantities are nonnegative and a release or consume never exceeds the
amount currently reserved on the targeted batch. -/
def safeOp (s : InvState) : StockOp → Prop
  | .add _ q _ => 0 ≤ q
  | .reserve _ q => 0 ≤ q
  | .release gid q =>
      0 ≤ q ∧ ∀ b ∈ (findItem s gid).toList, q ≤ b.reserved_stock
  | .consume gid q =>
      0 ≤ q ∧ ∀ b ∈ (findItem s gid).toList, q ≤ b.reserved_stock

instance (s : InvState) (op : StockOp) : Decidable (safeOp s op) := by
  cases op with
  | add gid q batch => exact inferInstanceAs (Decidable (0 ≤ q))
  | reserve gid q => exact inferInstanceAs (Decidable (0 ≤ q))
  | release gid q => exact inferInstanceAs (Decidable (_ ∧ _))
  | consume gid q => exact inferInstanceAs (Decidable (_ ∧ _))

def safeTrace (now : ℚ) (s : InvState) : List StockOp → Prop
  | [] => True
  | op :: ops => safeOp s op ∧ safeTrace now (applyOp now s op) ops

instance safeTraceDec (now : ℚ) :
    (s : InvState) → (ops : List StockOp) → Decidable (safeTrace now s ops)
  | _, [] => isTrue True.intro
  | s, op :: ops =>
    have : Decidable (safeTrace now (applyOp now s op) ops) :=
      safeTraceDec now _ ops
    inferInstanceAs (Decidable (safeOp s op ∧ _))

theorem applyOp_preserves (now : ℚ) (s : InvState) (op : StockOp)
    (hs : ∀ b ∈ s.inventory, batchOK b) (hop : safeOp s op) :
    ∀ b ∈ (applyOp now s op).inventory, batchOK b := by
  cases op with
  | add gid q batch =>
    intro b hb
    rcases List.mem_append.mp hb with h | h
    · exact hs b h
    · obtain rfl : b = _ := by simpa using h
      exact ⟨show q + 0 = q by ring, hop, le_refl 0⟩
  | reserve gid q =>
    intro b hb
    rcases hf : findItem s gid with _ | item
    · simp only [applyOp, reserve_stock, hf] at hb
      exact hs b hb
    · simp only [applyOp, reserve_stock, hf] at hb
      by_cases hge : item.available_stock ≥ q
      · rw [if_pos hge] at hb
        rcases mem_updateFirst hb with h | ⟨a, ha, rfl⟩
        · exact hs b h
        · have hf2 : s.inventory.find? (fun b => b.grain_id == gid)
              = some item := hf
          obtain rfl : a = item := Option.some_inj.mp (ha.symm.trans hf2)
          have hmem : a ∈ s.inventory := List.mem_of_find?_eq_some ha
          obtain ⟨hsum, hav, hre⟩ := hs a hmem
          have hq : (0 : ℚ) ≤ q := hop
          exact ⟨show a.available_stock - q + (a.reserved_stock + q)
                  = a.current_stock by linarith,
            show (0 : ℚ) ≤ a.available_stock - q by linarith,
            show (0 : ℚ) ≤ a.reserved_stock + q by linarith⟩
      · rw [if_neg hge] at hb
        exact hs b hb
  | release gid q =>
    intro b hb
    simp only [applyOp, release_stock] at hb
    rcases mem_updateFirst hb with h | ⟨a, ha, rfl⟩
    · exact hs b h
    · have hmem : a ∈ s.inventory := List.mem_of_find?_eq_some ha
      obtain ⟨hsum, hav, hre⟩ := hs a hmem
      obtain ⟨hq, hball⟩ := hop
      have hres : q ≤ a.reserved_stock := by
        have hfa : findItem s gid = some a := ha
        exact hball a (by simp [hfa])
      exact ⟨show a.available_stock + q + (a.reserved_stock - q)
              = a.current_stock by linarith,
        show (0 : ℚ) ≤ a.available_stock + q by linarith,
        show (0 : ℚ) ≤ a.reserved_stock - q by linarith⟩
  | consume gid q =>
    intro b hb
    rcases hf : findItem s gid with _ | item
    · simp only [applyOp, consume_stock, hf] at hb
      exact hs b hb
    · simp only [applyOp, consume_stock, hf] at hb
      rcases mem_updateFirst hb with h | ⟨a, ha, rfl⟩
      · exact hs b h
      · have hf2 : s.inventory.find? (fun b => b.grain_id == gid)
            = some item := hf
        obtain rfl : a = item := Option.some_inj.mp (ha.symm.trans hf2)
        have hmem : a ∈ s.inventory := List.mem_of_find?_eq_some ha
        obtain ⟨hsum, hav, hre⟩ := hs a hmem
        obtain ⟨hq, hball⟩ := hop
        have hres : q ≤ a.reserved_stock := hball a (by simp [hf])
        have hmax : max 0 (a.reserved_stock - q) = a.reserved_stock - q :=
          max_eq_right (by linarith)
        exact ⟨show a.available_stock + max 0 (a.reserved_stock - q)
                = a.current_stock - q by rw [hmax]; linarith,
          hav, le_max_left 0 _⟩

/-- Example trace for the invariant theorem: replenish 10, reserve 4,
release 2 of the reservation, consume the remaining 2. -/
def opsEx : List StockOp :=
  [.add "g" 10 "B1", .reserve "g" 4, .release "g" 2, .consume "g" 2]

/-- C1: the per-batch invariant available + reserved = current with both
nonnegative is NOT maintained by every operation sequence: release_stock
applies no clamping, so releasing from a batch with nothing reserved
drives reserved_stock negative. -/
theorem C1_counterexample :
    ¬ ∀ b ∈ (execOps 0 ⟨[], []⟩
        [StockOp.add "g" 10 "B1", StockOp.release "g" 1]).inventory,
      batchOK b := by
  intro h
  have hinv : (execOps 0 ⟨[], []⟩
      [StockOp.add "g" 10 "B1", StockOp.release "g" 1]).inventory =
      [⟨"g", "B1", 10, 0 - 1, 10 + 1, 0⟩] := by
    norm_num [execOps, applyOp, add_stock, release_stock, findItem,
      findGrain, updateFirst]
  have hmem : (⟨"g", "B1", 10, 0 - 1, 10 + 1, 0⟩ : InventoryItem) ∈
      (execOps 0 ⟨[], []⟩
        [StockOp.add "g" 10 "B1", StockOp.release "g" 1]).inventory := by
    rw [hinv]; exact List.mem_singleton.mpr rfl
  have h3 := (h _ hmem).2.2
  norm_num at h3

/-- C1 (amended): for every batch, after every sequence of ledger
operations in which quantities are nonnegative and every release and
consume is bounded by the reserved stock of the targeted batch, the
batch satisfies available_stock + reserved_stock = current_stock with
both components nonnegative. -/
theorem C1_stock_invariant (now : ℚ) (s : InvState) (ops : List StockOp)
    (hs : ∀ b ∈ s.inventory, batchOK b) (htr : safeTrace now s ops) :
    ∀ b ∈ (execOps now s ops).inventory, batchOK b := by
  induction ops generalizing s with
  | nil => exact hs
  | cons op ops ih =>
    exact ih (applyOp now s op)
      (applyOp_preserves now s op hs htr.1) htr.2

theorem C1_stock_invariant_witness :
    (∀ b ∈ (InvState.mk [] []).inventory, batchOK b) ∧
    safeTrace 0 ⟨[], []⟩ opsEx ∧
    ∀ b ∈ (execOps 0 ⟨[], []⟩ opsEx).inventory, batchOK b := by
  have hsafe : safeTrace 0 ⟨[], []⟩ opsEx := by
    norm_num [opsEx, safeTrace, safeOp, applyOp, add_stock, reserve_stock,
      release_stock, consume_stock, findItem, findGrain, updateFirst]
  exact ⟨by simp, hsafe,
    C1_stock_invariant 0 ⟨[], []⟩ opsEx (by simp) hsafe⟩

/-- C2: reserve_stock on an existing batch succeeds exactly when the
read available_stock is at least the quantity; on success the two stock
fields move together in the single resulting state (current_stock and
the catalog untouched), and on failure the state is returned entirely
unchanged.  The embedding is sequential, so the read-check-update is one
step by construction. -/
theorem C2_reserve_conditional (s : InvState) (gid : String) (q now : ℚ)
    (item : InventoryItem) (hfind : findItem s gid = some item) :
    ((reserve_stock s gid q now).1 = true ↔ q ≤ item.available_stock) ∧
    ((reserve_stock s gid q now).1 = false →
      (reserve_stock s gid q now).2 = s) ∧
    (q ≤ item.available_stock →
      findItem (reserve_stock s gid q now).2 gid =
        some { item with
          reserved_stock := item.reserved_stock + q,
          available_stock := item.available_stock - q,
          last_updated := now } ∧
      (reserve_stock s gid q now).2.grains = s.grains) := by
  have hfind2 : s.inventory.find? (fun b => b.grain_id == gid)
      = some item := hfind
  have hp := List.find?_some hfind2
  by_cases hge : q ≤ item.available_stock
  · have hres : reserve_stock s gid q now =
        (true, { s with inventory :=
          (updateFirst (fun b => b.grain_id == gid)
            (fun b => { b with
              reserved_stock := b.reserved_stock + q,
              available_stock := b.available_stock - q,
              last_updated := now }) s.inventory) }) := by
      simp [reserve_stock, hfind, hge]
    refine ⟨?_, ?_, fun _ => ⟨?_, ?_⟩⟩
    · rw [hres]; exact ⟨fun _ => hge, fun _ => rfl⟩
    · rw [hres]; intro hfalse; simp at hfalse
    · rw [hres]
      exact find?_updateFirst_pos hfind2 (by simpa using hp)
    · rw [hres]
  · have hres : reserve_stock s gid q now = (false, s) := by
      simp [reserve_stock, hfind, hge]
    refine ⟨?_, fun _ => by rw [hres], fun h => absurd h hge⟩
    rw [hres]
    exact ⟨fun h => by simp at h, fun h => absurd h hge⟩

def s2ex : InvState := ⟨[⟨"g", "B1", 5, 0, 5, 0⟩], []⟩

theorem C2_reserve_conditional_witness :
    (reserve_stock s2ex "g" 3 1).1 = true ∧
    findItem (reserve_stock s2ex "g" 3 1).2 "g" =
      some ⟨"g", "B1", 5, 0 + 3, 5 - 3, 1⟩ ∧
    (reserve_stock s2ex "g" 3 1).2.grains = [] := by
  have h := C2_reserve_conditional s2ex "g" 3 1 ⟨"g", "B1", 5, 0, 5, 0⟩
    (by decide)
  exact ⟨h.1.mpr (by norm_num), (h.2.2 (by norm_num)).1,
    (h.2.2 (by norm_num)).2⟩

/-- C5: release_stock does NOT clamp: releasing 3 against a batch with
nothing reserved leaves reserved_stock = -3 < 0 and available_stock = 13
above the current_stock baseline of 10. -/
theorem C5_counterexample :
    (release_stock (add_stock ⟨[], []⟩ "g" 10 "B1" 0) "g" 3 0).inventory =
      [⟨"g", "B1", 10, 0 - 3, 10 + 3, 0⟩] ∧
    ¬ (0 : ℚ) ≤ 0 - 3 ∧ ¬ ((10 + 3 : ℚ) ≤ 10) := by
  refine ⟨?_, by norm_num, by norm_num⟩
  norm_num [release_stock, add_stock, findItem, findGrain, updateFirst]

/-- C5 (amended): release_stock unconditionally increments
available_stock and decrements reserved_stock by the quantity on the
first batch of the grain, with no clamping at zero, so duplicate or
excess releases drive reserved_stock negative and push available_stock
above the current_stock baseline; the catalog is untouched. -/
theorem C5_release_unclamped (s : InvState) (gid : String) (q now : ℚ)
    (item : InventoryItem) (hfind : findItem s gid = some item) :
    findItem (release_stock s gid q now) gid =
      some { item with
        reserved_stock := item.reserved_stock - q,
        available_stock := item.available_stock + q,
        last_updated := now } ∧
    (release_stock s gid q now).grains = s.grains := by
  have hfind2 : s.inventory.find? (fun b => b.grain_id == gid)
      = some item := hfind
  have hp := List.find?_some hfind2
  exact ⟨find?_updateFirst_pos hfind2 (by simpa using hp), rfl⟩

def s5ex : InvState := ⟨[⟨"g", "B1", 10, 2, 8, 0⟩], []⟩

theorem C5_release_unclamped_witness :
    findItem (release_stock s5ex "g" 5 7) "g" =
      some ⟨"g", "B1", 10, 2 - 5, 8 + 5, 7⟩ ∧
    (release_stock s5ex "g" 5 7).grains = [] :=
  C5_release_unclamped s5ex "g" 5 7 ⟨"g", "B1", 10, 2, 8, 0⟩ (by decide)

def s6ex : InvState := ⟨[⟨"g", "B1", 2, 1, 1, 0⟩], [⟨"g", 2, true⟩]⟩

/-- C6: consume_stock clamps only reserved_stock; current_stock is
decremented with no clamping, goes negative (2 - 5 = -3), and the
negative figure is propagated to the catalog stock_kg. -/
theorem C6_counterexample :
    (consume_stock s6ex "g" 5 1).inventory =
      [⟨"g", "B1", 2 - 5, max 0 (1 - 5), 1, 1⟩] ∧
    (consume_stock s6ex "g" 5 1).grains = [⟨"g", 2 - 5, true⟩] ∧
    ¬ (0 : ℚ) ≤ 2 - 5 := by
  refine ⟨?_, ?_, by norm_num⟩ <;>
    norm_num [consume_stock, s6ex, findItem, findGrain, updateFirst]

/-- C6 (amended): consume_stock decrements current_stock by the quantity
with NO clamping (it may go negative), sets reserved_stock to
max 0 (reserved_stock - quantity) (only this field is clamped), leaves
available_stock alone, and propagates the possibly negative new
current_stock to the stock_kg of the grain record. -/
theorem C6_consume_unclamped_current (s : InvState) (gid : String)
    (q now : ℚ) (item : InventoryItem)
    (hfind : findItem s gid = some item) :
    findItem (consume_stock s gid q now) gid =
      some { item with
        current_stock := item.current_stock - q,
        reserved_stock := max 0 (item.reserved_stock - q),
        last_updated := now } ∧
    ∀ g, findGrain s gid = some g →
      findGrain (consume_stock s gid q now) gid =
        some { g with stock_kg := item.current_stock - q } := by
  have hfind2 : s.inventory.find? (fun b => b.grain_id == gid)
      = some item := hfind
  have hp := List.find?_some hfind2
  have hcons : consume_stock s gid q now =
      { inventory :=
          (updateFirst (fun b => b.grain_id == gid)
            (fun b => { b with
              current_stock := item.current_stock - q,
              reserved_stock := max 0 (item.reserved_stock - q),
              last_updated := now }) s.inventory),
        grains :=
          (updateFirst (fun g => g.id == gid)
            (fun g => { g with stock_kg := item.current_stock - q })
            s.grains) } := by
    simp [consume_stock, hfind]
  constructor
  · rw [hcons]
    exact find?_updateFirst_pos hfind2 (by simpa using hp)
  · intro g hg
    have hg2 : s.grains.find? (fun g2 => g2.id == gid) = some g := hg
    have hpg := List.find?_some hg2
    rw [hcons]
    exact find?_updateFirst_pos hg2 (by simpa using hpg)

def s6wex : InvState :=
  ⟨[⟨"g", "B1", 10, 4, 6, 0⟩], [⟨"g", 10, true⟩]⟩

theorem C6_consume_unclamped_current_witness :
    findItem (consume_stock s6wex "g" 3 2) "g" =
      some ⟨"g", "B1", 10 - 3, max 0 (4 - 3), 6, 2⟩ ∧
    findGrain (consume_stock s6wex "g" 3 2) "g" =
      some ⟨"g", 10 - 3, true⟩ := by
  have h := C6_consume_unclamped_current s6wex "g" 3 2
    ⟨"g", "B1", 10, 4, 6, 0⟩ (by decide)
  exact ⟨h.1, h.2 ⟨"g", 10, true⟩ (by decide)⟩

/-- C10: on a grain_id with no inventory record, reserve_stock reports
failure and returns the state unchanged, and release_stock and
consume_stock are exact no-ops on all inventory and catalog state. -/
theorem C10_missing_grain_noop (s : InvState) (gid : String) (q now : ℚ)
    (hfind : findItem s gid = none) :
    reserve_stock s gid q now = (false, s) ∧
    release_stock s gid q now = s ∧
    consume_stock s gid q now = s := by
  refine ⟨by simp [reserve_stock, hfind], ?_, by simp [consume_stock, hfind]⟩
  have hall : ∀ x ∈ s.inventory, ((x.grain_id == gid) = false) := by
    intro x hx
    have := List.find?_eq_none.mp hfind x hx
    simpa using this
  show { s with inventory := _ } = s
  rw [updateFirst_of_forall_neg hall]

def s10ex : InvState :=
  ⟨[⟨"other", "B1", 1, 0, 1, 0⟩], [⟨"other", 1, true⟩]⟩

theorem C10_missing_grain_noop_witness :
    reserve_stock s10ex "g" 2 3 = (false, s10ex) ∧
    release_stock s10ex "g" 2 3 = s10ex ∧
    consume_stock s10ex "g" 2 3 = s10ex :=
  C10_missing_grain_noop s10ex "g" 2 3 (by decide)

/-- One line item of an order request (server.py create_order reads only
total_price; grain_id and quantity are carried through verbatim). -/
structure LineItem where
  grain_id : String
  quantity : ℚ
  total_price : ℚ
deriving Repr, DecidableEq

/-- An order document (server.py, Order model); fields not read or
written by the verified paths (delivery data, store and courier
assignment, fees, subscription flags, priority, created_at) are
omitted. -/
structure OrderRec where
  id : String
  customer_id : String
  items : List LineItem
  status : String
  payment_status : String
  razorpay_order_id : String
  razorpay_payment_id : Option String
  total_amount : ℚ
  updated_at : ℚ
deriving Repr, DecidableEq

/-- An order_status_history document (server.py): append-only audit
record of one status change. -/
structure StatusEvent where
  order_id : String
  status : String
  updated_by : String
  note : String
  timestamp : ℚ
deriving Repr, DecidableEq

/-- The backend state the verified request paths operate on: the
inventory and grains collections, the orders collection, the status
history collection, the Redis entry for the catalog cache key grains:all
(value plus absolute expiry of its 300-second TTL), and the list of
status updates scheduled with asyncio.create_task but not yet run.
Per-customer order caches, websocket notifications and the external
Razorpay client are side channels not modelled. -/
structure ServerState where
  inv : InvState
  orders : List OrderRec
  history : List StatusEvent
  cacheGrainsAll : Option (List Grain × ℚ)
  scheduled : List (String × String)
deriving Repr, DecidableEq

/-- create_order (server.py lines 532-592): computes the total from the
line items, obtains an external payment reference (modelled as the
razorpayId argument), inserts one new order with status pending and
payment_status pending, and returns its id.  The source contains no
call into the stock ledger: no reservation, no stock check, and no
failure path for insufficient stock.  Store selection, the per-customer
order-cache eviction and the notification are external effects outside
this state. -/
def create_order (st : ServerState)
    (orderId razorpayId customerId : String) (items : List LineItem)
    (now : ℚ) : ServerState × String :=
  let total := (items.map (fun i => i.total_price)).sum
  let o : OrderRec :=
    { id := orderId, customer_id := customerId, items := items,
      status := "pending", payment_status := "pending",
      razorpay_order_id := razorpayId, razorpay_payment_id := none,
      total_amount := total, updated_at := now }
  ({ st with orders := st.orders ++ [o] }, orderId)

/-- update_order_status (server.py lines 833-865): after the role check,
unconditionally writes the requested status and a fresh updated_at onto
the order and appends a history event; the source performs no
transition validation of any kind. -/
def update_order_status (st : ServerState) (orderId newStatus : String)
    (role userId note : String) (now : ℚ) : Except String ServerState :=
  if role = "grinding_store" ∨ role = "admin" ∨ role = "delivery_boy" then
    .ok { st with
      orders :=
        (updateFirst (fun o => o.id == orderId)
          (fun o => { o with status := newStatus, updated_at := now })
          st.orders),
      history := st.history ++ [⟨orderId, newStatus, userId, note, now⟩] }
  else .error "Access denied"

/-- verify_payment (server.py lines 594-645): recomputes the HMAC
signature of razorpay_order_id|razorpay_payment_id (the HMAC keyed with
the secret is abstracted as the hmacSig argument) and rejects on
mismatch; otherwise unconditionally sets payment_status = paid, stores
the payment id, sets status = confirmed and refreshes updated_at on the
first order matching the razorpay order id, whatever its current
status, and, when an order matched, schedules a background update of
that order to grinding. -/
def verify_payment (hmacSig : String → String) (st : ServerState)
    (razorpayOrderId paymentId signature : String) (now : ℚ) :
    Except String ServerState :=
  if hmacSig (razorpayOrderId ++ "|" ++ paymentId) ≠ signature then
    .error "Invalid signature"
  else
    let st2 : ServerState :=
      { st with orders :=
        (updateFirst (fun o => o.razorpay_order_id == razorpayOrderId)
          (fun o => { o with
            payment_status := "paid",
            razorpay_payment_id := some paymentId,
            status := "confirmed",
            updated_at := now }) st.orders) }
    match st.orders.find?
        (fun o => o.razorpay_order_id == razorpayOrderId) with
    | none => .ok st2
    | some o =>
      .ok { st2 with scheduled := st2.scheduled ++ [(o.id, "grinding")] }

/-- process_order_status_update (server.py lines 295-332): writes the
new status and a fresh updated_at onto the order and appends a history
event attributed to the system; the notification and the per-customer
order-cache eviction are external effects outside this state. -/
def process_order_status_update (st : ServerState)
    (orderId newStatus : String) (now : ℚ) : ServerState :=
  { st with
    orders :=
      (updateFirst (fun o => o.id == orderId)
        (fun o => { o with status := newStatus, updated_at := now })
        st.orders),
    history := st.history ++
      [⟨orderId, newStatus, "system", "Auto-updated by system", now⟩] }

/-- The dwell threshold of the background progressor, in seconds:
timedelta(minutes=5) at server.py line 342. -/
def dwellThreshold : ℚ := 300

/-- The selection query of auto_update_order_status (server.py lines
340-343): orders in grinding or packing whose updated_at is older than
the dwell threshold. -/
def selectedOrders (st : ServerState) (now : ℚ) : List OrderRec :=
  st.orders.filter (fun o =>
    (o.status == "grinding" || o.status == "packing") &&
      decide (o.updated_at < now - dwellThreshold))

/-- The per-order body of the sweep loop (server.py lines 345-355):
grinding advances to packing, packing advances to out_for_delivery,
anything else leaves new_status unset and nothing happens. -/
def sweepStep (now : ℚ) (acc : ServerState) (o : OrderRec) : ServerState :=
  if o.status == "grinding" then
    process_order_status_update acc o.id "packing" now
  else if o.status == "packing" then
    process_order_status_update acc o.id "out_for_delivery" now
  else acc

/-- One sweep iteration of the background task auto_update_order_status
(server.py lines 335-362): select the stale processing orders and run
the loop body over each of them in order. -/
def auto_update_order_status (st : ServerState) (now : ℚ) : ServerState :=
  (selectedOrders st now).foldl (sweepStep now) st

/-- The one-step advance the sweep applies to a selected order. -/
def advanceOrder (now : ℚ) (o : OrderRec) : OrderRec :=
  { o with
    status := if o.status = "grinding" then "packing"
              else "out_for_delivery",
    updated_at := now }

/-- Specification of the sweep effect on a single order: an order
advances exactly one step, from grinding to packing or from packing to
out_for_delivery, exactly when it is stale; everything else, including
out_for_delivery and delivered orders, is untouched. -/
def stepOrder (now : ℚ) (o : OrderRec) : OrderRec :=
  if (o.status = "grinding" ∨ o.status = "packing") ∧
      o.updated_at < now - dwellThreshold then advanceOrder now o
  else o

/-- The audit event the sweep appends for one advanced order. -/
def sweepEvent (now : ℚ) (o : OrderRec) : StatusEvent :=
  ⟨o.id, if o.status = "grinding" then "packing" else "out_for_delivery",
    "system", "Auto-updated by system", now⟩

theorem find?_id_of_nodup {l : List OrderRec} :
    (l.map OrderRec.id).Nodup → ∀ {o : OrderRec}, o ∈ l →
      l.find? (fun d => d.id == o.id) = some o := by
  induction l with
  | nil => intro _ o ho; simp at ho
  | cons x xs ih =>
    intro h o ho
    rw [List.map_cons, List.nodup_cons] at h
    rcases List.mem_cons.mp ho with rfl | hmem
    · rw [List.find?_cons_of_pos _ (by simp)]
    · have hx : (x.id == o.id) = false := by
        apply beq_eq_false_iff_ne.mpr
        intro hEq
        exact h.1 (hEq ▸ List.mem_map_of_mem OrderRec.id hmem)
      rw [List.find?_cons_of_neg _ (by simp [hx])]
      exact ih h.2 hmem

theorem updateFirst_eq_map_of_nodup {l : List OrderRec} {i : String}
    (h : (l.map OrderRec.id).Nodup) (f : OrderRec → OrderRec) :
    updateFirst (fun d => d.id == i) f l =
      l.map (fun d => if d.id == i then f d else d) := by
  induction l with
  | nil => rfl
  | cons x xs ih =>
    rw [List.map_cons, List.nodup_cons] at h
    by_cases hx : (x.id == i) = true
    · rw [updateFirst, if_pos hx, List.map_cons, if_pos hx]
      congr 1
      have hrest : ∀ d ∈ xs, (if d.id == i then f d else d) = d := by
        intro d hd
        have hne : (d.id == i) = false := by
          apply beq_eq_false_iff_ne.mpr
          intro hEq
          apply h.1
          have hxi : x.id = i := by simpa using hx
          rw [hxi, ← hEq]
          exact List.mem_map_of_mem OrderRec.id hd
        simp [hne]
      have h1 : List.map (fun d => if (d.id == i) = true then f d else d) xs
          = List.map id xs :=
        List.map_congr_left (by intro d hd; rw [hrest d hd]; rfl)
      rw [h1, List.map_id]
    · rw [updateFirst, if_neg hx, List.map_cons, if_neg hx, ih h.2]

theorem sweep_foldl_orders (now : ℚ) :
    ∀ (sel : List OrderRec) (acc : ServerState),
    (∀ o ∈ sel, o.status = "grinding" ∨ o.status = "packing") →
    (sel.map OrderRec.id).Nodup →
    (acc.orders.map OrderRec.id).Nodup →
    (∀ o ∈ sel, acc.orders.find? (fun d => d.id == o.id) = some o) →
    (sel.foldl (sweepStep now) acc).orders =
      acc.orders.map (fun d =>
        if sel.any (fun o => o.id == d.id) then advanceOrder now d
        else d) := by
  intro sel
  induction sel with
  | nil => intro acc _ _ _ _; simp
  | cons o sel' ih =>
    intro acc hsub hsel haccN hfind
    have ho := hsub o (List.mem_cons_self o sel')
    rw [List.map_cons, List.nodup_cons] at hsel
    have hfo : acc.orders.find? (fun d => d.id == o.id) = some o :=
      hfind o (List.mem_cons_self o sel')
    have hstep : sweepStep now acc o =
        process_order_status_update acc o.id
          (if o.status = "grinding" then "packing"
           else "out_for_delivery") now := by
      rcases ho with h | h
      · simp +decide [sweepStep, h]
      · simp +decide [sweepStep, h]
    have hacc' : (sweepStep now acc o).orders =
        acc.orders.map (fun d =>
          if d.id == o.id then
            { d with
              status := if o.status = "grinding" then "packing"
                        else "out_for_delivery",
              updated_at := now }
          else d) := by
      rw [hstep]
      exact updateFirst_eq_map_of_nodup haccN _
    have hids' : (sweepStep now acc o).orders.map OrderRec.id =
        acc.orders.map OrderRec.id := by
      rw [hstep]
      exact map_updateFirst (fun b => rfl)
    have haccN' : ((sweepStep now acc o).orders.map OrderRec.id).Nodup := by
      rw [hids']; exact haccN
    have hfind' : ∀ o2 ∈ sel',
        (sweepStep now acc o).orders.find? (fun d => d.id == o2.id)
          = some o2 := by
      intro o2 h2
      have hne : o.id ≠ o2.id := by
        intro hEq
        exact hsel.1 (hEq ▸ List.mem_map_of_mem OrderRec.id h2)
      rw [hstep]
      exact (find?_updateFirst_disjoint
        (fun d : OrderRec => d.id == o.id) (fun d : OrderRec => d.id == o2.id)
        (fun d : OrderRec => { d with
          status := if o.status = "grinding" then "packing"
                    else "out_for_delivery",
          updated_at := now })
        (fun b hb => by
          have hbo : b.id = o.id := by simpa using hb
          apply beq_eq_false_iff_ne.mpr
          rw [hbo]; exact hne)
        (fun b => rfl)).trans (hfind o2 (List.mem_cons_of_mem _ h2))
    have hrest := ih (sweepStep now acc o)
      (fun o2 h2 => hsub o2 (List.mem_cons_of_mem _ h2))
      hsel.2 haccN' hfind'
    calc (List.foldl (sweepStep now) acc (o :: sel')).orders
        = (List.foldl (sweepStep now) (sweepStep now acc o) sel').orders :=
          rfl
      _ = (sweepStep now acc o).orders.map (fun d =>
            if sel'.any (fun o2 => o2.id == d.id) then advanceOrder now d
            else d) := hrest
      _ = (acc.orders.map (fun d =>
            if d.id == o.id then
              { d with
                status := if o.status = "grinding" then "packing"
                          else "out_for_delivery",
                updated_at := now }
            else d)).map (fun d =>
            if sel'.any (fun o2 => o2.id == d.id) then advanceOrder now d
            else d) := by rw [hacc']
      _ = acc.orders.map (fun d =>
            if (o :: sel').any (fun o2 => o2.id == d.id) then
              advanceOrder now d
            else d) := by
          rw [List.map_map]
          apply List.map_congr_left
          intro d hd
          by_cases hdo : (d.id == o.id) = true
          · have hdid : d.id = o.id := by simpa using hdo
            have hfd : acc.orders.find? (fun x => x.id == d.id) = some d :=
              find?_id_of_nodup haccN hd
            have hdeq : d = o := by
              rw [hdid] at hfd
              exact Option.some_inj.mp (hfd.symm.trans hfo)
            subst hdeq
            have hoo : (d.id == d.id) = true := by simp
            have hsel'any :
                sel'.any (fun o2 => o2.id == d.id) = false := by
              apply List.any_eq_false.mpr
              intro x hx hxb
              have hxd : x.id = d.id := by simpa using hxb
              exact hsel.1 (hxd ▸ List.mem_map_of_mem OrderRec.id hx)
            simp only [Function.comp_apply]
            rw [if_pos hoo]
            simp [advanceOrder, hsel'any, hoo]
          · simp only [Function.comp_apply]
            rw [if_neg hdo]
            have hfalse : (o.id == d.id) = false := by
              apply beq_eq_false_iff_ne.mpr
              intro hEq
              apply hdo
              simp [hEq]
            simp [List.any_cons, hfalse]

theorem sweep_foldl_history (now : ℚ) :
    ∀ (sel : List OrderRec) (acc : ServerState),
    (∀ o ∈ sel, o.status = "grinding" ∨ o.status = "packing") →
    (sel.foldl (sweepStep now) acc).history =
      acc.history ++ sel.map (sweepEvent now) := by
  intro sel
  induction sel with
  | nil => intro acc _; simp
  | cons o sel' ih =>
    intro acc hsub
    have ho := hsub o (List.mem_cons_self o sel')
    have hstep : (sweepStep now acc o).history =
        acc.history ++ [sweepEvent now o] := by
      rcases ho with h | h
      · simp +decide [sweepStep, process_order_status_update, sweepEvent, h]
      · simp +decide [sweepStep, process_order_status_update, sweepEvent, h]
    calc (List.foldl (sweepStep now) acc (o :: sel')).history
        = (List.foldl (sweepStep now) (sweepStep now acc o) sel').history :=
          rfl
      _ = (sweepStep now acc o).history ++ sel'.map (sweepEvent now) :=
          ih _ (fun o2 h2 => hsub o2 (List.mem_cons_of_mem _ h2))
      _ = acc.history ++ (o :: sel').map (sweepEvent now) := by
          rw [hstep, List.append_assoc]
          rfl

/-- Rate limit constants (server.py lines 88-89): 100 requests per
60-second sliding window. -/
def RATE_LIMIT_REQUESTS : ℕ := 100

def RATE_LIMIT_WINDOW : ℚ := 60

/-- The purge step of rate_limit_middleware (server.py lines 194-198):
keep only the timestamps strictly younger than the window. -/
def purgeOld (ts : List ℚ) (now : ℚ) : List ℚ :=
  ts.filter (fun t => decide (now - t < RATE_LIMIT_WINDOW))

/-- rate_limit_middleware (server.py lines 190-211) for one client
identity: purge the stored timestamps, reject when at least
RATE_LIMIT_REQUESTS remain (returning HTTP 429 without invoking the
downstream handler and without recording a timestamp), otherwise record
the current timestamp and admit.  The boolean is true exactly when
call_next runs; the returned list is the request_counts entry for this
client address afterwards.  Entries for distinct addresses are
independent. -/
def rate_limit_middleware (ts : List ℚ) (now : ℚ) : Bool × List ℚ :=
  let purged := purgeOld ts now
  if RATE_LIMIT_REQUESTS ≤ purged.length then (false, purged)
  else (true, purged ++ [now])

/-- get_grains (server.py lines 498-530): if the Redis key grains:all
holds an unexpired entry, return the cached value; otherwise read the
available grains from the database, cache the result with a 300-second
TTL, and return it. -/
def get_grains (st : ServerState) (now : ℚ) : List Grain × ServerState :=
  match st.cacheGrainsAll with
  | some (v, expiry) =>
    if now < expiry then (v, st)
    else
      let v2 := st.inv.grains.filter (fun g => g.available)
      (v2, { st with cacheGrainsAll := some (v2, now + 300) })
  | none =>
    let v2 := st.inv.grains.filter (fun g => g.available)
    (v2, { st with cacheGrainsAll := some (v2, now + 300) })

/-- C7: one sweep of the background progressor maps every order through
stepOrder: it advances an order by at most one step, only grinding to
packing or packing to out_for_delivery, only when updated_at is older
than the 5-minute dwell threshold, and leaves every other order,
including out_for_delivery orders, untouched (it never produces
delivered); it appends one status event per advanced order, each
attributed to actor system. -/
theorem C7_background_progressor (st : ServerState) (now : ℚ)
    (hids : (st.orders.map OrderRec.id).Nodup) :
    (auto_update_order_status st now).orders =
      st.orders.map (stepOrder now) ∧
    (auto_update_order_status st now).history =
      st.history ++ (selectedOrders st now).map (sweepEvent now) ∧
    (∀ e ∈ (selectedOrders st now).map (sweepEvent now),
      e.updated_by = "system" ∧
        (e.status = "packing" ∨ e.status = "out_for_delivery")) ∧
    (∀ o ∈ st.orders,
      (o.status ≠ "grinding" ∧ o.status ≠ "packing") ∨
        ¬ o.updated_at < now - dwellThreshold →
      stepOrder now o = o) := by
  have hsub : ∀ o ∈ selectedOrders st now,
      o.status = "grinding" ∨ o.status = "packing" := by
    intro o h
    have h2 := (List.mem_filter.mp h).2
    have h3 : (o.status = "grinding" ∨ o.status = "packing") ∧
        o.updated_at < now - dwellThreshold := by simpa using h2
    exact h3.1
  have hsel : ((selectedOrders st now).map OrderRec.id).Nodup :=
    hids.sublist ((List.filter_sublist _).map OrderRec.id)
  have hfind : ∀ o ∈ selectedOrders st now,
      st.orders.find? (fun d => d.id == o.id) = some o := fun o h =>
    find?_id_of_nodup hids (List.mem_filter.mp h).1
  have horders :=
    sweep_foldl_orders now (selectedOrders st now) st hsub hsel hids hfind
  have hhist := sweep_foldl_history now (selectedOrders st now) st hsub
  have hpt : st.orders.map (fun d =>
      if (selectedOrders st now).any (fun o => o.id == d.id) then
        advanceOrder now d
      else d) = st.orders.map (stepOrder now) := by
    apply List.map_congr_left
    intro d hd
    by_cases hmem : d ∈ selectedOrders st now
    · have hany : (selectedOrders st now).any (fun o => o.id == d.id)
          = true :=
        List.any_eq_true.mpr ⟨d, hmem, by simp⟩
      have hcond : (d.status = "grinding" ∨ d.status = "packing") ∧
          d.updated_at < now - dwellThreshold := by
        have := (List.mem_filter.mp hmem).2
        simpa using this
      rw [if_pos hany]
      unfold stepOrder
      rw [if_pos hcond]
    · have hany : (selectedOrders st now).any (fun o => o.id == d.id)
          = false := by
        apply List.any_eq_false.mpr
        intro x hx hxb
        have hxd : x.id = d.id := by simpa using hxb
        have hxd2 : x = d :=
          List.inj_on_of_nodup_map hids (List.mem_filter.mp hx).1 hd hxd
        exact hmem (hxd2 ▸ hx)
      have hcond : ¬ ((d.status = "grinding" ∨ d.status = "packing") ∧
          d.updated_at < now - dwellThreshold) := by
        intro hc
        apply hmem
        apply List.mem_filter.mpr
        exact ⟨hd, by simpa using hc⟩
      rw [if_neg (by simp [hany])]
      unfold stepOrder
      rw [if_neg hcond]
  refine ⟨horders.trans hpt, hhist, ?_, ?_⟩
  · intro e he
    rcases List.mem_map.mp he with ⟨o, ho, rfl⟩
    refine ⟨rfl, ?_⟩
    by_cases h : o.status = "grinding"
    · simp [sweepEvent, h]
    · simp [sweepEvent, h]
  · intro o ho hcase
    have hneg : ¬ ((o.status = "grinding" ∨ o.status = "packing") ∧
        o.updated_at < now - dwellThreshold) := by
      intro hc
      rcases hcase with ⟨h1, h2⟩ | h3
      · rcases hc.1 with a | b
        · exact h1 a
        · exact h2 b
      · exact h3 hc.2
    unfold stepOrder
    rw [if_neg hneg]

/-- Example backend state for the progressor: a stale grinding order, a
stale packing order, a stale out_for_delivery order and a fresh grinding
order. -/
def st7ex : ServerState :=
  { inv := ⟨[], []⟩,
    orders := [
      ⟨"o1", "c1", [], "grinding", "paid", "r1", none, 0, 0⟩,
      ⟨"o2", "c2", [], "packing", "paid", "r2", none, 0, 0⟩,
      ⟨"o3", "c3", [], "out_for_delivery", "paid", "r3", none, 0, 0⟩,
      ⟨"o4", "c4", [], "grinding", "paid", "r4", none, 0, 900⟩],
    history := [], cacheGrainsAll := none, scheduled := [] }

theorem C7_background_progressor_witness :
    (auto_update_order_status st7ex 1000).orders =
      st7ex.orders.map (stepOrder 1000) ∧
    (auto_update_order_status st7ex 1000).history =
      st7ex.history ++ (selectedOrders st7ex 1000).map (sweepEvent 1000) := by
  have h := C7_background_progressor st7ex 1000 (by decide)
  exact ⟨h.1, h.2.1⟩

/-- consume_stock as seen from the backend state: SmartInventoryManager
holds no reference to Redis, so the catalog cache entry is untouched by
construction (smart_inventory.py lines 379-406 contain no cache
eviction). -/
def server_consume_stock (st : ServerState) (gid : String) (q now : ℚ) :
    ServerState :=
  { st with inv := consume_stock st.inv gid q now }

/-- add_stock (replenish) as seen from the backend state; likewise no
cache eviction exists in the source. -/
def server_add_stock (st : ServerState) (gid : String) (q : ℚ)
    (batch : String) (now : ℚ) : ServerState :=
  { st with inv := add_stock st.inv gid q batch now }

/-- C8: on each inbound call the middleware purges the timestamps older
than the sliding window and counts the remainder: the request is
rejected exactly when at least RATE_LIMIT_REQUESTS remain (in
particular a 101st request inside the window at the limit of 100);
rejection records no new timestamp and the downstream handler does not
run, admission appends exactly the current timestamp; once the whole
window has elapsed since every recorded request, the identity is
admitted again. -/
theorem C8_rate_limiter (ts : List ℚ) (now later : ℚ) :
    ((rate_limit_middleware ts now).1 = false ↔
      RATE_LIMIT_REQUESTS ≤ (purgeOld ts now).length) ∧
    ((rate_limit_middleware ts now).1 = false →
      (rate_limit_middleware ts now).2 = purgeOld ts now) ∧
    ((rate_limit_middleware ts now).1 = true →
      (rate_limit_middleware ts now).2 = purgeOld ts now ++ [now]) ∧
    ((∀ t ∈ ts, RATE_LIMIT_WINDOW ≤ later - t) →
      (rate_limit_middleware ts later).1 = true) := by
  refine ⟨?_, ?_, ?_, ?_⟩
  · by_cases h : RATE_LIMIT_REQUESTS ≤ (purgeOld ts now).length
    · simp [rate_limit_middleware, h]
    · simp [rate_limit_middleware, h]
  · intro hrej
    by_cases h : RATE_LIMIT_REQUESTS ≤ (purgeOld ts now).length
    · simp [rate_limit_middleware, h]
    · simp [rate_limit_middleware, h] at hrej
  · intro hadm
    by_cases h : RATE_LIMIT_REQUESTS ≤ (purgeOld ts now).length
    · simp [rate_limit_middleware, h] at hadm
    · simp [rate_limit_middleware, h]
  · intro hall
    have hempty : purgeOld ts later = [] := by
      simp only [purgeOld]
      apply List.filter_eq_nil_iff.mpr
      intro t ht
      simp only [decide_eq_true_eq, not_lt]
      exact hall t ht
    norm_num [rate_limit_middleware, hempty, RATE_LIMIT_REQUESTS]

/-- One hundred timestamps recorded at time 0: a full window at the
limit. -/
def ts8ex : List ℚ := List.replicate 100 0

theorem C8_rate_limiter_witness :
    (rate_limit_middleware ts8ex 30).1 = false ∧
    (rate_limit_middleware ts8ex 30).2 = purgeOld ts8ex 30 ∧
    (rate_limit_middleware ts8ex 61).1 = true := by
  have hkeep : purgeOld ts8ex 30 = ts8ex := by
    simp only [purgeOld, ts8ex]
    apply List.filter_eq_self.mpr
    intro t ht
    have ht0 : t = 0 := List.eq_of_mem_replicate ht
    subst ht0
    norm_num [RATE_LIMIT_WINDOW]
  have hlen : RATE_LIMIT_REQUESTS ≤ (purgeOld ts8ex 30).length := by
    rw [hkeep]
    simp [ts8ex, RATE_LIMIT_REQUESTS]
  have h := C8_rate_limiter ts8ex 30 61
  refine ⟨h.1.mpr hlen, h.2.1 (h.1.mpr hlen), h.2.2.2 ?_⟩
  intro t ht
  have ht0 : t = 0 := List.eq_of_mem_replicate ht
  subst ht0
  norm_num [RATE_LIMIT_WINDOW]

/-- Backend state for the cache claims: catalog stock 5, cached catalog
view with the same figure, cache entry valid until time 1000. -/
def st9ex : ServerState :=
  { inv := ⟨[⟨"g", "B1", 5, 0, 5, 0⟩], [⟨"g", 5, true⟩]⟩,
    orders := [], history := [],
    cacheGrainsAll := some ([⟨"g", 5, true⟩], 1000),
    scheduled := [] }

/-- C9: a stock-affecting mutation does NOT invalidate the cache: after
consuming 2 kg the database stock figure is 3, the cache entry still
holds the stale snapshot with figure 5, and a read before the TTL
expiry (time 20 < 1000) returns the stale cached value instead of the
mutated one. -/
theorem C9_counterexample :
    (server_consume_stock st9ex "g" 2 10).inv.grains =
      [⟨"g", 5 - 2, true⟩] ∧
    (server_consume_stock st9ex "g" 2 10).cacheGrainsAll =
      some ([⟨"g", 5, true⟩], 1000) ∧
    (get_grains (server_consume_stock st9ex "g" 2 10) 20).1 =
      [⟨"g", 5, true⟩] ∧
    ¬ (get_grains (server_consume_stock st9ex "g" 2 10) 20).1 =
      [⟨"g", 5 - 2, true⟩] ∧
    (20 : ℚ) < 1000 := by
  refine ⟨?_, rfl, ?_, ?_, by norm_num⟩
  · norm_num [server_consume_stock, consume_stock, findItem, findGrain,
      updateFirst, st9ex]
  · norm_num [get_grains, server_consume_stock, consume_stock, findItem,
      findGrain, updateFirst, st9ex]
  · norm_num [get_grains, server_consume_stock, consume_stock, findItem,
      findGrain, updateFirst, st9ex, Grain.mk.injEq]

/-- C9 (amended): neither consume nor replenish touches the catalog
cache entry, so the next read within the TTL returns the cached
pre-mutation value unchanged: get_grains serves the unexpired entry
as-is, and only reloads from the database once the entry is missing or
expired. -/
theorem C9_no_eager_invalidation (st : ServerState) (gid batch : String)
    (q now now2 : ℚ) :
    (server_consume_stock st gid q now).cacheGrainsAll =
      st.cacheGrainsAll ∧
    (server_add_stock st gid q batch now).cacheGrainsAll =
      st.cacheGrainsAll ∧
    (∀ v expiry, st.cacheGrainsAll = some (v, expiry) → now2 < expiry →
      (get_grains st now2).1 = v ∧ (get_grains st now2).2 = st) ∧
    (st.cacheGrainsAll = none →
      (get_grains st now2).1 =
        st.inv.grains.filter (fun g => g.available)) := by
  refine ⟨rfl, rfl, ?_, ?_⟩
  · intro v expiry hv hlt
    constructor <;> simp [get_grains, hv, hlt]
  · intro hnone
    simp [get_grains, hnone]

theorem C9_no_eager_invalidation_witness :
    (server_consume_stock st9ex "g" 2 10).cacheGrainsAll =
      st9ex.cacheGrainsAll ∧
    (get_grains st9ex 20).1 = [⟨"g", 5, true⟩] := by
  have h := C9_no_eager_invalidation st9ex "g" "B2" 2 10 20
  exact ⟨h.1, (h.2.2.1 [⟨"g", 5, true⟩] 1000 rfl (by norm_num)).1⟩

/-- Backend state for the order-creation claim: one batch with
available_stock = 2. -/
def st3ex : ServerState :=
  { inv := ⟨[⟨"g", "B1", 2, 0, 2, 0⟩], [⟨"g", 2, true⟩]⟩,
    orders := [], history := [], cacheGrainsAll := none, scheduled := [] }

/-- C3: order creation performs no reservation and has no
insufficient-stock failure path: a single-item order of quantity 3
against a batch with available_stock = 2 is created successfully (the
order is persisted in status pending) instead of failing with
InsufficientStock; the inventory is untouched (available_stock stays 2,
which also makes the second half of the claim hold vacuously). -/
theorem C3_counterexample :
    (create_order st3ex "o1" "rzp1" "cust" [⟨"g", 3, 135⟩] 0).1.orders =
      [⟨"o1", "cust", [⟨"g", 3, 135⟩], "pending", "pending", "rzp1",
        none,
        ([(⟨"g", 3, 135⟩ : LineItem)].map (fun i => i.total_price)).sum,
        0⟩] ∧
    (create_order st3ex "o1" "rzp1" "cust" [⟨"g", 3, 135⟩] 0).1.inv =
      st3ex.inv ∧
    findItem (create_order st3ex "o1" "rzp1" "cust"
        [⟨"g", 3, 135⟩] 0).1.inv "g" = some ⟨"g", "B1", 2, 0, 2, 0⟩ ∧
    ¬ ((3 : ℚ) ≤ 2) :=
  ⟨rfl, rfl, by decide, by norm_num⟩

/-- C3 (amended): create_order inserts exactly one new pending order
computed from its arguments and leaves the entire inventory state and
the catalog cache unchanged; there is no reservation call, no rollback,
and no InsufficientStock outcome on any input. -/
theorem C3_create_order_no_reservation (st : ServerState)
    (orderId razorpayId customerId : String) (items : List LineItem)
    (now : ℚ) :
    (create_order st orderId razorpayId customerId items now).1.orders =
      st.orders ++
        [{ id := orderId, customer_id := customerId, items := items,
           status := "pending", payment_status := "pending",
           razorpay_order_id := razorpayId, razorpay_payment_id := none,
           total_amount := (items.map (fun i => i.total_price)).sum,
           updated_at := now }] ∧
    (create_order st orderId razorpayId customerId items now).1.inv =
      st.inv ∧
    (create_order st orderId razorpayId customerId
        items now).1.cacheGrainsAll = st.cacheGrainsAll ∧
    (create_order st orderId razorpayId customerId items now).2 =
      orderId :=
  ⟨rfl, rfl, rfl, rfl⟩

/-- Backend state for the transition claims: a single delivered, paid
order. -/
def st4ex : ServerState :=
  { inv := ⟨[], []⟩,
    orders := [⟨"o1", "cust", [], "delivered", "paid", "rzp1", none, 0,
      0⟩],
    history := [], cacheGrainsAll := none, scheduled := [] }

/-- C4: there is no transition validation: a manual update moves a
delivered order back to pending, succeeding instead of failing with
InvalidTransition, and both status and updated_at change. -/
theorem C4_counterexample :
    update_order_status st4ex "o1" "pending" "admin" "u1" "" 50 =
      Except.ok { st4ex with
        orders := [⟨"o1", "cust", [], "pending", "paid", "rzp1", none, 0,
          50⟩],
        history := [⟨"o1", "pending", "u1", "", 50⟩] } ∧
    ("pending" : String) ≠ "delivered" ∧ (50 : ℚ) ≠ 0 := by
  refine ⟨rfl, by decide, by norm_num⟩

/-- C4 (amended): no path validates transitions.  With an authorized
role, the manual update applies ANY requested status: it returns ok,
rewrites the first matching order to the requested status with a fresh
updated_at, and appends the event; payment verification with a valid
signature likewise forces status confirmed and payment_status paid onto
the first order matching the razorpay id regardless of its current
status.  No InvalidTransition outcome exists in the code. -/
theorem C4_no_transition_validation :
    (∀ (st : ServerState) (orderId newStatus role userId note : String)
      (now : ℚ) (o : OrderRec),
      (role = "grinding_store" ∨ role = "admin" ∨
        role = "delivery_boy") →
      st.orders.find? (fun d => d.id == orderId) = some o →
      update_order_status st orderId newStatus role userId note now =
        Except.ok { st with
          orders := (updateFirst (fun d => d.id == orderId)
            (fun d => { d with status := newStatus, updated_at := now })
            st.orders),
          history := st.history ++
            [⟨orderId, newStatus, userId, note, now⟩] } ∧
      (updateFirst (fun d => d.id == orderId)
          (fun d => { d with status := newStatus, updated_at := now })
          st.orders).find? (fun d => d.id == orderId) =
        some { o with status := newStatus, updated_at := now }) ∧
    (∀ (hmacSig : String → String) (st : ServerState)
      (razorpayOrderId paymentId : String) (now : ℚ) (o : OrderRec),
      st.orders.find? (fun d => d.razorpay_order_id == razorpayOrderId)
        = some o →
      verify_payment hmacSig st razorpayOrderId paymentId
          (hmacSig (razorpayOrderId ++ "|" ++ paymentId)) now =
        Except.ok { st with
          orders := (updateFirst
            (fun d => d.razorpay_order_id == razorpayOrderId)
            (fun d => { d with
              payment_status := "paid",
              razorpay_payment_id := some paymentId,
              status := "confirmed",
              updated_at := now }) st.orders),
          scheduled := st.scheduled ++ [(o.id, "grinding")] } ∧
      (updateFirst (fun d => d.razorpay_order_id == razorpayOrderId)
          (fun d => { d with
            payment_status := "paid",
            razorpay_payment_id := some paymentId,
            status := "confirmed",
            updated_at := now }) st.orders).find?
          (fun d => d.razorpay_order_id == razorpayOrderId) =
        some { o with
          payment_status := "paid",
          razorpay_payment_id := some paymentId,
          status := "confirmed",
          updated_at := now }) := by
  constructor
  · intro st orderId newStatus role userId note now o hrole hfind
    constructor
    · unfold update_order_status
      rw [if_pos hrole]
    · have hp := List.find?_some hfind
      exact find?_updateFirst_pos hfind hp
  · intro hmacSig st razorpayOrderId paymentId now o hfind
    constructor
    · unfold verify_payment
      rw [if_neg (by simp)]
      rw [hfind]
    · have hp := List.find?_some hfind
      exact find?_updateFirst_pos hfind hp

theorem C4_no_transition_validation_witness :
    update_order_status st4ex "o1" "grinding" "admin" "u1" "n" 50 =
      Except.ok { st4ex with
        orders := (updateFirst (fun d => d.id == "o1")
          (fun d => { d with status := "grinding", updated_at := 50 })
          st4ex.orders),
        history := st4ex.history ++ [⟨"o1", "grinding", "u1", "n", 50⟩] } ∧
    verify_payment (fun _ => "sig") st4ex "rzp1" "pay1" "sig" 50 =
      Except.ok { st4ex with
        orders := (updateFirst
          (fun d => d.razorpay_order_id == "rzp1")
          (fun d => { d with
            payment_status := "paid",
            razorpay_payment_id := some "pay1",
            status := "confirmed",
            updated_at := 50 }) st4ex.orders),
        scheduled := st4ex.scheduled ++ [("o1", "grinding")] } := by
  have h := C4_no_transition_validation
  have h1 := h.1 st4ex "o1" "grinding" "admin" "u1" "n" 50
    ⟨"o1", "cust", [], "delivered", "paid", "rzp1", none, 0, 0⟩
    (Or.inr (Or.inl rfl)) (by decide)
  have h2 := h.2 (fun _ => "sig") st4ex "rzp1" "pay1" 50
    ⟨"o1", "cust", [], "delivered", "paid", "rzp1", none, 0, 0⟩
    (by decide)
  exact ⟨h1.1, h2.1⟩

end GrainCraft
